import Mathlib

/- Verification development for the tool-augmented agent execution engine in
packages/bubble-core/src/bubbles/service-bubble/ai-agent.ts.

The development has three layers:

1. A model of the JSON values exchanged with JSON.stringify and JSON.parse, with a
   verified round trip (parseJson_stringify). Strings are lists of characters; string
   escaping covers the quote and backslash escapes that stringify emits for the values
   modeled here; numbers are integers (floating point is out of scope). parseJson accepts
   exactly canonical texts (no whitespace skipping), which is all the engine ever feeds it
   besides free-form tool strings.

2. A shallow embedding of the engine: model/backup configuration merging
   (buildModelConfig), retry backoff (exponentialBackoff), the tool execution node with
   hooks and streaming events (executeToolsWithHooks), the two-node agent graph loop
   (runGraph with shouldContinue / shouldContinueAfterTools), the execution accountant
   (extractToolCalls), result assembly (executeAgentTry), whole-model fallback
   (executeWithModel) and the top-level catch (performAction). The LLM, the provider
   initialization and the tools are oracles supplied through AgentEnv, so theorems
   quantify over every possible model behavior. Hooks are modeled with their
   argument-rewriting and stop-requesting capabilities; the history-rewriting capability
   of hooks is not modeled (modeled hooks leave the history unchanged), which is
   exercised by none of the properties below.

3. Theorems about the embedding, each annotated with the claim it settles.
-/

set_option maxHeartbeats 1000000
set_option linter.unusedVariables false

/-- JSON values, as produced and consumed by JSON.stringify / JSON.parse. -/
inductive Json where
  | null : Json
  | bool (b : Bool) : Json
  | num (n : Int) : Json
  | str (s : List Char) : Json
  | arr (xs : List Json) : Json
  | obj (kvs : List (List Char × Json)) : Json

def lbrace : Char := Char.ofNat 123

def rbrace : Char := Char.ofNat 125

def digitChar (d : Nat) : Char := Char.ofNat (48 + d)

def digitVal (c : Char) : Nat := c.toNat - 48

def isDigitChar (c : Char) : Bool := 48 ≤ c.toNat && c.toNat ≤ 57

def natToDigitsFuel : Nat → Nat → List Char
  | 0, _ => []
  | f+1, n => if n = 0 then [] else natToDigitsFuel f (n / 10) ++ [digitChar (n % 10)]

def natToDigits (n : Nat) : List Char := natToDigitsFuel n n

def natChars (n : Nat) : List Char := if n = 0 then ['0'] else natToDigits n

def intChars (n : Int) : List Char :=
  if n < 0 then '-' :: natChars n.natAbs else natChars n.natAbs

def nullChars : List Char := "null".toList

def trueChars : List Char := "true".toList

def falseChars : List Char := "false".toList

def escapeChar (c : Char) : List Char :=
  if c = '"' then ['\\', '"']
  else if c = '\\' then ['\\', '\\']
  else [c]

def escapeChars (s : List Char) : List Char := s.foldr (fun c acc => escapeChar c ++ acc) []

mutual

def stringifyChars : Json → List Char
  | .null => nullChars
  | .bool true => trueChars
  | .bool false => falseChars
  | .num n => intChars n
  | .str s => '"' :: escapeChars s ++ ['"']
  | .arr [] => ['[', ']']
  | .arr (x :: xs) => '[' :: stringifyChars x ++ stringifyTail xs ++ [']']
  | .obj [] => [lbrace, rbrace]
  | .obj (kv :: kvs) => lbrace :: entryChars kv ++ stringifyObjTail kvs ++ [rbrace]

def entryChars : List Char × Json → List Char
  | (k, v) => '"' :: escapeChars k ++ ['"', ':'] ++ stringifyChars v

def stringifyTail : List Json → List Char
  | [] => []
  | x :: xs => ',' :: stringifyChars x ++ stringifyTail xs

def stringifyObjTail : List (List Char × Json) → List Char
  | [] => []
  | kv :: kvs => ',' :: entryChars kv ++ stringifyObjTail kvs

end

mutual

def parseStringBody : List Char → Option (List Char × List Char)
  | [] => none
  | c :: cs =>
    if c = '\\' then parseStringEsc cs
    else if c = '"' then some ([], cs)
    else (parseStringBody cs).map (fun p => (c :: p.1, p.2))

def parseStringEsc : List Char → Option (List Char × List Char)
  | [] => none
  | c2 :: cs2 =>
    if c2 = '"' ∨ c2 = '\\' then (parseStringBody cs2).map (fun p => (c2 :: p.1, p.2))
    else none

end

def parseDigitsAux : List Char → Nat → Nat × List Char
  | c :: cs, acc => if isDigitChar c then parseDigitsAux cs (acc * 10 + digitVal c) else (acc, c :: cs)
  | [], acc => (acc, [])

def parsePosNum : List Char → Option (Nat × List Char)
  | c :: cs => if isDigitChar c then some (parseDigitsAux cs (digitVal c)) else none
  | [] => none

def parseKeyword (lit : List Char) (v : Json) (cs : List Char) : Option (Json × List Char) :=
  if lit.isPrefixOf cs then some (v, cs.drop lit.length) else none

mutual

def parseVal : Nat → List Char → Option (Json × List Char)
  | 0, _ => none
  | f+1, cs =>
    match cs with
    | [] => none
    | c :: rest =>
      if c = 'n' then parseKeyword ['u', 'l', 'l'] .null rest
      else if c = 't' then parseKeyword ['r', 'u', 'e'] (.bool true) rest
      else if c = 'f' then parseKeyword ['a', 'l', 's', 'e'] (.bool false) rest
      else if c = '"' then
        match parseStringBody rest with
        | some (s, r) => some (.str s, r)
        | none => none
      else if c = '[' then parseArrBody f rest
      else if c = lbrace then parseObjBody f rest
      else if c = '-' then
        match parsePosNum rest with
        | some (n, r) => some (.num (-(n : Int)), r)
        | none => none
      else if isDigitChar c then
        match parsePosNum (c :: rest) with
        | some (n, r) => some (.num (n : Int), r)
        | none => none
      else none

def parseArrBody : Nat → List Char → Option (Json × List Char)
  | 0, _ => none
  | f+1, cs =>
    match cs with
    | [] => none
    | c :: rest =>
      if c = ']' then some (.arr [], rest)
      else
        match parseVal f (c :: rest) with
        | some (v, r1) =>
          match parseArrTail f r1 with
          | some (vs, r2) => some (.arr (v :: vs), r2)
          | none => none
        | none => none

def parseObjBody : Nat → List Char → Option (Json × List Char)
  | 0, _ => none
  | f+1, cs =>
    match cs with
    | [] => none
    | c :: rest =>
      if c = rbrace then some (.obj [], rest)
      else
        match parseEntry f (c :: rest) with
        | some (kv, r1) =>
          match parseObjTail f r1 with
          | some (kvs, r2) => some (.obj (kv :: kvs), r2)
          | none => none
        | none => none

def parseArrTail : Nat → List Char → Option (List Json × List Char)
  | 0, _ => none
  | f+1, cs =>
    match cs with
    | [] => none
    | c :: rest =>
      if c = ']' then some ([], rest)
      else if c = ',' then
        match parseVal f rest with
        | some (v, r) =>
          match parseArrTail f r with
          | some (vs, r2) => some (v :: vs, r2)
          | none => none
        | none => none
      else none

def parseEntry : Nat → List Char → Option ((List Char × Json) × List Char)
  | 0, _ => none
  | f+1, cs =>
    match cs with
    | [] => none
    | c :: rest =>
      if c = '"' then
        match parseStringBody rest with
        | some (k, r) => parseColonVal f k r
        | none => none
      else none

def parseColonVal : Nat → List Char → List Char → Option ((List Char × Json) × List Char)
  | 0, _, _ => none
  | f+1, k, cs =>
    match cs with
    | [] => none
    | c :: rest =>
      if c = ':' then
        match parseVal f rest with
        | some (v, r) => some ((k, v), r)
        | none => none
      else none

def parseObjTail : Nat → List Char → Option (List (List Char × Json) × List Char)
  | 0, _ => none
  | f+1, cs =>
    match cs with
    | [] => none
    | c :: rest =>
      if c = rbrace then some ([], rest)
      else if c = ',' then
        match parseEntry f rest with
        | some (kv, r) =>
          match parseObjTail f r with
          | some (kvs, r2) => some (kv :: kvs, r2)
          | none => none
        | none => none
      else none

end

def parseJson (cs : List Char) : Option Json :=
  match parseVal (3 * cs.length + 3) cs with
  | some (v, []) => some v
  | _ => none

def noDigitStart : List Char → Prop
  | [] => True
  | c :: _ => isDigitChar c = false

def isDelim : List Char → Prop
  | [] => True
  | c :: _ => c = ',' ∨ c = ']' ∨ c = rbrace

/-- Model of the ToolMessage content construction (ai-agent.ts lines 828 to 834):
a string output is stored as is, any other output is passed through JSON.stringify. -/
def renderToolContent (toolOutput : Json) : List Char :=
  match toolOutput with
  | .str s => s
  | v => stringifyChars v

def Json.isStr : Json → Bool
  | .str _ => true
  | _ => false

/-- Model of the accountant output recovery (ai-agent.ts lines 1229 to 1237): the
tool-result content is fed to JSON.parse and kept as the raw string when parsing throws. -/
def reparseToolOutput (content : List Char) : Json := (parseJson content).getD (.str content)

structure BackupModelConfig where
  model : List Char
  temperature : Option ℚ
  maxTokens : Option Nat
  maxRetries : Option Nat
deriving DecidableEq

structure ModelConfig where
  model : List Char
  temperature : ℚ
  maxTokens : Nat
  maxRetries : Nat
  provider : Option (List (List Char))
  jsonMode : Bool
  backupModel : Option BackupModelConfig
deriving DecidableEq

/-- Model of AIAgentBubble.buildModelConfig (ai-agent.ts lines 375 to 392): derive the
effective config for a backup execution; the JS merge uses the nullish coalescing operator
for temperature, maxTokens and maxRetries and clears backupModel. -/
def buildModelConfig (primaryConfig : ModelConfig) (backupConfig : Option BackupModelConfig) :
    ModelConfig :=
  match backupConfig with
  | none => primaryConfig
  | some b =>
    { model := b.model
      temperature := b.temperature.getD primaryConfig.temperature
      maxTokens := b.maxTokens.getD primaryConfig.maxTokens
      maxRetries := b.maxRetries.getD primaryConfig.maxRetries
      provider := primaryConfig.provider
      jsonMode := primaryConfig.jsonMode
      backupModel := none }

/-- Model of the exponentialBackoff helper (ai-agent.ts lines 900 to 914). The source
computes delay = min(1000 * 2^(attemptNumber-1), 32000) milliseconds and
jitter = delay * 0.25 * (Math.random() - 0.5); rand stands for the Math.random() draw,
a rational in [0, 1). The returned value is the final delay slept before the retry.
Callers always pass attemptNumber at least 1 (the p-retry numbering, and the sleep only
happens with retries left); the truncated subtraction here differs from Math.pow only at
the never-reached attemptNumber = 0. -/
def exponentialBackoff (attemptNumber : Nat) (rand : ℚ) : ℚ :=
  let baseDelay : ℚ := 1000
  let maxDelay : ℚ := 32000
  let delay : ℚ := min (baseDelay * 2 ^ (attemptNumber - 1)) maxDelay
  let jitter : ℚ := delay * (1/4) * (rand - 1/2)
  delay + jitter

/-- Tool call as carried by an AI message: id, name and JSON arguments. -/
structure ToolCall where
  id : List Char
  name : List Char
  args : Json

/-- Message history entries: HumanMessage, AIMessage (content, tool calls and the
finishReason of additional_kwargs) and ToolMessage (content and tool_call_id). -/
inductive Msg where
  | human (content : List Char)
  | ai (content : List Char) (toolCalls : List ToolCall) (finishReason : Option (List Char))
  | tool (content : List Char) (toolCallId : List Char)

inductive StreamEvent where
  | llmStart
  | llmComplete
  | toolStart (tool : List Char) (input : Json) (callId : List Char)
  | toolComplete (callId : List Char) (input : Json) (tool : List Char) (output : Json)
  | errorEvent (message : List Char) (recoverable : Bool)

structure ToolDef where
  name : List Char
  invoke : Json → Except (List Char) Json

/-- Tool hooks (ai-agent.ts lines 36 to 50). The source hooks also return a messages
array that can rewrite the whole history; modeled hooks leave the history unchanged and
return only the rewritten arguments (before) and the stop request (after), the parts the
verified properties exercise. -/
structure Hooks where
  beforeToolCall : Option (List Char → Json → List Msg → Json)
  afterToolCall : Option (List Char → Json → Json → List Msg → Bool)

def noHooks : Hooks := { beforeToolCall := none, afterToolCall := none }

structure BatchState where
  toolMessages : List Msg
  currentMessages : List Msg
  shouldStopAfterTools : Bool
  events : List StreamEvent

def toolNotFoundContent (name : List Char) : List Char :=
  "Error: Tool ".toList ++ name ++ " not found".toList

def hookRewrittenArgs (hooks : Hooks) (toolCall : ToolCall) (messages : List Msg) : Json :=
  match hooks.beforeToolCall with
  | some hook => hook toolCall.name toolCall.args messages
  | none => toolCall.args

def afterHookStop (hooks : Hooks) (toolCall : ToolCall) (newArgs : Json)
    (toolOutput : Json) (messages : List Msg) : Bool :=
  match hooks.afterToolCall with
  | some hook => hook toolCall.name newArgs toolOutput messages
  | none => false

/-- Model of one iteration of the tool-call loop in executeToolsWithHooks (ai-agent.ts
lines 784 to 876). An unresolved tool name pushes the "Error: Tool <name> not found"
ToolMessage onto toolMessages only and continues (lines 786 to 795). For a resolved tool
the before-hook runs first, the tool_start event is then emitted with toolCall.args, which
at that point still holds the original arguments (the rewrite at line 821 happens after
the emission at lines 807 to 814), the tool is invoked with the rewritten arguments, the
result message is built, the after-hook may request a stop, and tool_complete carries the
rewritten arguments. A throwing tool yields an "Error: <message>" result message and no
tool_complete event (lines 867 to 875). -/
def processToolCall (tools : List ToolDef) (hooks : Hooks) (st : BatchState)
    (toolCall : ToolCall) : BatchState :=
  match tools.find? (fun t => t.name == toolCall.name) with
  | none =>
    { st with toolMessages :=
        st.toolMessages ++ [Msg.tool (toolNotFoundContent toolCall.name) toolCall.id] }
  | some tool =>
    let startEvent := StreamEvent.toolStart toolCall.name toolCall.args toolCall.id
    let newArgs := hookRewrittenArgs hooks toolCall st.currentMessages
    match tool.invoke newArgs with
    | .ok toolOutput =>
      let toolMessage := Msg.tool (renderToolContent toolOutput) toolCall.id
      let stopRequested := afterHookStop hooks toolCall newArgs toolOutput
        (st.currentMessages ++ [toolMessage])
      { toolMessages := st.toolMessages ++ [toolMessage]
        currentMessages := st.currentMessages ++ [toolMessage]
        shouldStopAfterTools := st.shouldStopAfterTools || stopRequested
        events := st.events ++ [startEvent,
          StreamEvent.toolComplete toolCall.id newArgs toolCall.name toolOutput] }
    | .error emsg =>
      let errorMessage := Msg.tool ("Error: ".toList ++ emsg) toolCall.id
      { toolMessages := st.toolMessages ++ [errorMessage]
        currentMessages := st.currentMessages ++ [errorMessage]
        shouldStopAfterTools := st.shouldStopAfterTools
        events := st.events ++ [startEvent] }

structure ToolBatchResult where
  update : List Msg
  newState : List Msg
  toolMessages : List Msg
  stop : Bool
  events : List StreamEvent

def lastMessageToolCalls (messages : List Msg) : List ToolCall :=
  match messages.getLast? with
  | some (Msg.ai _ tcs _) => tcs
  | _ => []

/-- Model of AIAgentBubble.executeToolsWithHooks (ai-agent.ts lines 769 to 885). update is
what the node returns: currentMessages when the length check at line 880 fires, the
toolMessages list otherwise. newState is the graph state after the MessagesAnnotation
reducer applies the update; since state messages carry ids, returning already-present
messages replaces them in place, so under the modeled hooks the new state always equals
currentMessages. -/
def executeToolsWithHooks (tools : List ToolDef) (hooks : Hooks) (messages : List Msg) :
    ToolBatchResult :=
  let toolCalls := lastMessageToolCalls messages
  let st0 : BatchState :=
    { toolMessages := [], currentMessages := messages,
      shouldStopAfterTools := false, events := [] }
  let st := toolCalls.foldl (processToolCall tools hooks) st0
  let update :=
    if st.currentMessages.length ≠ messages.length + st.toolMessages.length
    then st.currentMessages else st.toolMessages
  { update := update, newState := st.currentMessages, toolMessages := st.toolMessages,
    stop := st.shouldStopAfterTools, events := st.events }

inductive GraphTarget where
  | tools
  | agent
  | done
deriving DecidableEq

/-- Model of the conditional edge after the agent node (ai-agent.ts lines 1051 to 1061). -/
def shouldContinue (messages : List Msg) : GraphTarget :=
  match messages.getLast? with
  | some (Msg.ai _ (_ :: _) _) => GraphTarget.tools
  | _ => GraphTarget.done

/-- Model of the conditional edge after the tools node (ai-agent.ts lines 1064 to 1071):
the flag is the shouldStopAfterTools instance field set during the just-completed batch. -/
def shouldContinueAfterTools (shouldStopAfterTools : Bool) : GraphTarget :=
  if shouldStopAfterTools then GraphTarget.done else GraphTarget.agent

structure AIResp where
  content : List Char
  toolCalls : List ToolCall
  finishReason : Option (List Char)

inductive JsThrown where
  | err (message : List Char)
  | nonError
deriving DecidableEq

/-- Message extraction applied in every catch clause of the source:
error instanceof Error then error.message else the literal "Unknown error". -/
def errMessageOf : JsThrown → List Char
  | .err m => m
  | .nonError => "Unknown error".toList

def recursionLimitError : JsThrown := .err "GraphRecursionError: recursion limit reached".toList

/-- Model of the compiled two-node graph execution (createAgentGraph, ai-agent.ts lines
887 to 1095, invoked at line 1191). The agent node prepends the system prompt as a
HumanMessage and calls the model (an oracle here, absorbing tool binding, retries and
streaming callbacks); with no tools the graph is the straight line agent to end (line
1091). fuel models the recursionLimit (one unit per node execution); running out raises
GraphRecursionError, modeled as a thrown error. The second result component counts model
invocations. -/
def runGraph (llm : List Msg → Except JsThrown AIResp) (tools : List ToolDef) (hooks : Hooks)
    (systemPrompt : List Char) : Nat → List Msg → Nat → Except JsThrown (List Msg × Nat)
  | 0, _, _ => .error recursionLimitError
  | fuel+1, messages, invocations =>
    match llm (Msg.human systemPrompt :: messages) with
    | .error e => .error e
    | .ok resp =>
      let messages1 := messages ++ [Msg.ai resp.content resp.toolCalls resp.finishReason]
      let invocations1 := invocations + 1
      if tools.isEmpty then .ok (messages1, invocations1)
      else
        match shouldContinue messages1 with
        | GraphTarget.tools =>
          match fuel with
          | 0 => .error recursionLimitError
          | fuel2+1 =>
            let tb := executeToolsWithHooks tools hooks messages1
            match shouldContinueAfterTools tb.stop with
            | GraphTarget.done => .ok (tb.newState, invocations1)
            | _ => runGraph llm tools hooks systemPrompt fuel2 tb.newState invocations1
        | _ => .ok (messages1, invocations1)

def setMapEntry (m : List (List Char × (List Char × Json))) (id : List Char)
    (v : List Char × Json) : List (List Char × (List Char × Json)) :=
  if m.any (fun e => e.1 == id) then m.map (fun e => if e.1 == id then (id, v) else e)
  else m ++ [(id, v)]

def lookupMapEntry (m : List (List Char × (List Char × Json))) (id : List Char) :
    Option (List Char × Json) :=
  (m.find? (fun e => e.1 == id)).map (fun e => e.2)

def updateToolCallMap (m : List (List Char × (List Char × Json))) (tcs : List ToolCall) :
    List (List Char × (List Char × Json)) :=
  tcs.foldl (fun m tc => setMapEntry m tc.id (tc.name, tc.args)) m

structure ToolCallRecord where
  tool : List Char
  input : Json
  output : Json

/-- Model of the accounting walk in executeAgent (ai-agent.ts lines 1202 to 1253): one
pass over the history, AI messages register their tool calls in a map keyed by call id
(set semantics, later writes overwrite), tool messages matched against the map produce
the ordered toolCalls records with re-parsed output. -/
def extractToolCalls : List Msg → List (List Char × (List Char × Json)) → List ToolCallRecord
  | [], _ => []
  | Msg.ai _ tcs _ :: rest, m => extractToolCalls rest (updateToolCallMap m tcs)
  | Msg.tool content callId :: rest, m =>
    match lookupMapEntry m callId with
    | some (name, args) =>
      { tool := name, input := args, output := reparseToolOutput content }
        :: extractToolCalls rest m
    | none => extractToolCalls rest m
  | Msg.human _ :: rest, m => extractToolCalls rest m

structure AIAgentResult where
  response : List Char
  toolCalls : List ToolCallRecord
  iterations : Nat
  error : List Char
  success : Bool

def isAiMsg : Msg → Bool
  | .ai _ _ _ => true
  | _ => false

def lastAiMessage (messages : List Msg) : Option Msg := (messages.filter isAiMsg).getLast?

def msgContent : Msg → List Char
  | .human c => c
  | .ai c _ _ => c
  | .tool c _ => c

def msgFinishReason : Msg → Option (List Char)
  | .ai _ _ fr => fr
  | _ => none

def responseOf (messages : List Msg) : List Char :=
  match lastAiMessage messages with
  | some m => msgContent m
  | none => []

/-- Modelled from the spec: the function formatFinalResponse lives in
utils/agent-formatter.ts, which is not among the sources under src. Per spec section 4.6,
with jsonMode unset the content of the last AI message is the response, unchanged; with
jsonMode set the response is validated and cleaned as structured JSON output and a parse
failure becomes a failed-but-non-throwing result. The cleaning step is modeled as the
identity on the validated response. -/
def formatFinalResponse (response : List Char) (model : List Char) (jsonMode : Bool) :
    List Char × Option (List Char) :=
  if jsonMode then
    match parseJson response with
    | some _ => (response, none)
    | none => (response, some "Invalid JSON response from model".toList)
  else (response, none)

def safetyBlockedMsg : List Char :=
  "[Gemini Error] Unable to generate a response. Please increase maxTokens in model configuration or try again with a different model.".toList

def maxTokensExceededMsg : List Char :=
  "Response was truncated due to max tokens limit. Please increase maxTokens in model configuration.".toList

/-- Model of the try block of AIAgentBubble.executeAgent (ai-agent.ts lines 1114 to 1374):
run the graph, count iterations as the final message-history length (line 1198), account
tool calls, raise on the SAFETY_BLOCKED and MAX_TOKENS finish reasons of the last AI
message (lines 1265 to 1275), take the last AI message content as the response and format
it. On a throw the error is paired with the iterations and toolCalls accumulated so far,
which the catch clause returns as partial results. The second component of a successful
result is the ghost count of model invocations. Image resolution (lines 1120 to 1189) is
not modeled; a failure there is one more throw reaching the same catch, covered by the
llm oracle throwing. -/
def executeAgentTry (llm : List Msg → Except JsThrown AIResp) (tools : List ToolDef)
    (hooks : Hooks) (modelConfig : ModelConfig) (message systemPrompt : List Char)
    (maxIterations : Nat) :
    Except (JsThrown × Nat × List ToolCallRecord) (AIAgentResult × Nat) :=
  match runGraph llm tools hooks systemPrompt maxIterations [Msg.human message] 0 with
  | .error e => .error (e, 0, [])
  | .ok (messages, invocations) =>
    let iterations := messages.length
    let toolCalls := extractToolCalls messages []
    let finishReason := (lastAiMessage messages).bind msgFinishReason
    if finishReason = some "SAFETY_BLOCKED".toList then
      .error (.err safetyBlockedMsg, iterations, toolCalls)
    else if finishReason = some "MAX_TOKENS".toList then
      .error (.err maxTokensExceededMsg, iterations, toolCalls)
    else
      let response := responseOf messages
      match formatFinalResponse response modelConfig.model modelConfig.jsonMode with
      | (resp, some formatError) =>
        .ok ({ response := resp, toolCalls := toolCalls, iterations := iterations,
               error := formatError, success := false }, invocations)
      | (resp, none) =>
        .ok ({ response := resp, toolCalls := toolCalls, iterations := iterations,
               error := [], success := true }, invocations)

structure AgentEnv where
  init : ModelConfig → Except JsThrown Unit
  llm : ModelConfig → List Msg → Except JsThrown AIResp
  tools : List ToolDef
  hooks : Hooks

def executionErrorResult (e : JsThrown) (iterations : Nat)
    (toolCalls : List ToolCallRecord) : AIAgentResult :=
  { response := "Execution error: ".toList ++ errMessageOf e
    toolCalls := toolCalls
    iterations := iterations
    error := errMessageOf e
    success := false }

/-- Model of AIAgentBubble.executeWithModel (ai-agent.ts lines 397 to 420) together with
the catch clause of executeAgent (lines 1375 to 1415), which in the source recurses back
into executeWithModel for the backup model (line 1399). init is the oracle for
initializeModel, initializeTools and createAgentGraph; a throw there propagates out of
executeWithModel without engaging the fallback, exactly as in the source. On a throw from
the try block, a configured backupModel triggers a whole re-execution under the derived
config; otherwise the catch returns the partial error result (lines 1403 to 1414). The
second component counts whole-model executions. -/
def executeWithModel (env : AgentEnv) (message systemPrompt : List Char)
    (maxIterations : Nat) (modelConfig : ModelConfig) :
    Except JsThrown (AIAgentResult × Nat) :=
  match env.init modelConfig with
  | .error e => .error e
  | .ok _ =>
    match executeAgentTry (env.llm modelConfig) env.tools env.hooks modelConfig
        message systemPrompt maxIterations with
    | .ok (r, _) => .ok (r, 1)
    | .error (e, iterations, toolCalls) =>
      match h : modelConfig.backupModel with
      | some backup =>
        match executeWithModel env message systemPrompt maxIterations
            (buildModelConfig modelConfig (some backup)) with
        | .ok (r, n) => .ok (r, n + 1)
        | .error e2 => .error e2
      | none => .ok (executionErrorResult e iterations toolCalls, 1)
termination_by (if modelConfig.backupModel.isSome then 1 else 0)
decreasing_by simp [buildModelConfig, h]

/-- Model of AIAgentBubble.performAction (ai-agent.ts lines 422 to 445): the top-level
catch mapping any escaped throw to a failed result record. -/
def performAction (env : AgentEnv) (message systemPrompt : List Char)
    (maxIterations : Nat) (modelConfig : ModelConfig) : AIAgentResult :=
  match executeWithModel env message systemPrompt maxIterations modelConfig with
  | .ok (r, _) => r
  | .error e =>
    { response := "Error: ".toList ++ errMessageOf e
      success := false
      toolCalls := []
      error := errMessageOf e
      iterations := 0 }

def samplePrimaryConfig : ModelConfig :=
  { model := "google/gemini-2.5-flash".toList
    temperature := 1
    maxTokens := 12800
    maxRetries := 3
    provider := none
    jsonMode := false
    backupModel := none }

def sampleBackupConfig : BackupModelConfig :=
  { model := "openai/gpt-5-mini".toList
    temperature := some 0
    maxTokens := none
    maxRetries := some 5 }

def backoffBaseDelay (attemptNumber : Nat) : ℚ :=
  min (1000 * 2 ^ (attemptNumber - 1)) 32000

def revealTool : ToolDef :=
  { name := "t".toList, invoke := fun args => .ok (Json.arr [args]) }

def rewriteHooks : Hooks :=
  { beforeToolCall := some (fun _ _ _ => Json.num 2), afterToolCall := none }

def realTool : ToolDef := { name := "real".toList, invoke := fun _ => .ok Json.null }

def ghostCall : ToolCall := ⟨"1".toList, "ghost".toList, Json.obj []⟩

def realCall : ToolCall := ⟨"2".toList, "real".toList, Json.obj []⟩

def ghostBatchHistory : List Msg :=
  [Msg.human "q".toList, Msg.ai [] [ghostCall, realCall] none]

def ghostLLM : List Msg → Except JsThrown AIResp := fun msgs =>
  if msgs.length ≤ 2 then
    .ok { content := [], toolCalls := [ghostCall, realCall], finishReason := none }
  else
    .ok { content := "done".toList, toolCalls := [], finishReason := none }

def plainAnswerLLM : List Msg → Except JsThrown AIResp :=
  fun _ => .ok { content := "4".toList, toolCalls := [], finishReason := none }

def witnessEnv : AgentEnv :=
  { init := fun _ => .ok ()
    llm := fun _ _ => .ok { content := "4".toList, toolCalls := [], finishReason := none }
    tools := []
    hooks := noHooks }

def emptyErrorEnv : AgentEnv :=
  { init := fun _ => .ok ()
    llm := fun _ _ => .error (.err [])
    tools := []
    hooks := noHooks }

def initFailEnv : AgentEnv :=
  { init := fun _ => .error (.err "No API credentials provided".toList)
    llm := fun _ _ => .error .nonError
    tools := []
    hooks := noHooks }

def stopTool : ToolDef := { name := "t".toList, invoke := fun _ => .ok Json.null }

def stopHooks : Hooks :=
  { beforeToolCall := none, afterToolCall := some (fun _ _ _ _ => true) }

def stopCall : ToolCall := ⟨"1".toList, "t".toList, Json.obj []⟩

def stopLLM : List Msg → Except JsThrown AIResp :=
  fun _ => .ok { content := "using tool".toList, toolCalls := [stopCall], finishReason := none }

def sampleToolCall : ToolCall := ⟨"1".toList, "echo".toList, Json.obj []⟩

theorem digit_facts : ∀ d, d < 10 → digitVal (digitChar d) = d ∧ isDigitChar (digitChar d) = true := by
  decide

theorem digitChar_not_special : ∀ d, d < 10 →
    digitChar d ≠ 'n' ∧ digitChar d ≠ 't' ∧ digitChar d ≠ 'f' ∧ digitChar d ≠ '"' ∧
    digitChar d ≠ '[' ∧ digitChar d ≠ lbrace ∧ digitChar d ≠ '-' ∧ digitChar d ≠ ']' ∧
    digitChar d ≠ ',' ∧ digitChar d ≠ rbrace ∧ digitChar d ≠ ':' := by
  decide

theorem natToDigitsFuel_stable (n : Nat) : ∀ f f', n ≤ f → n ≤ f' →
    natToDigitsFuel f n = natToDigitsFuel f' n := by
  induction n using Nat.strong_induction_on with
  | _ n ih =>
    intro f f' hf hf'
    match f, f' with
    | 0, 0 => rfl
    | 0, g'+1 =>
      have : n = 0 := by omega
      subst this; simp [natToDigitsFuel]
    | g+1, 0 =>
      have : n = 0 := by omega
      subst this; simp [natToDigitsFuel]
    | g+1, g'+1 =>
      by_cases h0 : n = 0
      · subst h0; simp [natToDigitsFuel]
      · simp only [natToDigitsFuel, if_neg h0]
        have hlt : n / 10 < n := Nat.div_lt_self (by omega) (by omega)
        rw [ih (n / 10) hlt g g' (by omega) (by omega)]

theorem natToDigits_eq (n : Nat) :
    natToDigits n = if n = 0 then [] else natToDigits (n / 10) ++ [digitChar (n % 10)] := by
  by_cases h0 : n = 0
  · subst h0; simp [natToDigits, natToDigitsFuel]
  · unfold natToDigits
    match hn : n, h0 with
    | g+1, _ =>
      simp only [natToDigitsFuel, if_neg (by omega : ¬ (g+1 = 0))]
      rw [natToDigitsFuel_stable ((g+1)/10) g ((g+1)/10)
        (by have := Nat.div_lt_self (Nat.succ_pos g) (by omega : (1:Nat) < 10); omega) (le_refl _)]

theorem natToDigits_digits (n : Nat) : ∀ c ∈ natToDigits n, ∃ d, d < 10 ∧ c = digitChar d := by
  induction n using Nat.strong_induction_on with
  | _ n ih =>
    intro c hc
    rw [natToDigits_eq] at hc
    by_cases h0 : n = 0
    · simp [h0] at hc
    · rw [if_neg h0] at hc
      rcases List.mem_append.mp hc with h | h
      · exact ih (n / 10) (Nat.div_lt_self (by omega) (by omega)) c h
      · simp at h
        exact ⟨n % 10, by omega, h⟩

theorem natToDigits_ne_nil (n : Nat) (h : n ≠ 0) : natToDigits n ≠ [] := by
  rw [natToDigits_eq, if_neg h]
  simp

theorem foldl_natToDigits (n : Nat) : ∀ a : Nat,
    (natToDigits n).foldl (fun acc c => acc * 10 + digitVal c) a
      = a * 10 ^ (natToDigits n).length + n := by
  induction n using Nat.strong_induction_on with
  | _ n ih =>
    intro a
    rw [natToDigits_eq]
    by_cases h0 : n = 0
    · simp [h0]
    · rw [if_neg h0]
      rw [List.foldl_append]
      rw [ih (n / 10) (Nat.div_lt_self (by omega) (by omega)) a]
      have hd : digitVal (digitChar (n % 10)) = n % 10 := (digit_facts _ (by omega)).1
      simp only [List.foldl_cons, List.foldl_nil, hd, List.length_append, List.length_cons,
        List.length_nil]
      have hmod := Nat.div_add_mod n 10
      rw [pow_succ]
      ring_nf
      omega

theorem natChars_digits (n : Nat) : ∀ c ∈ natChars n, ∃ d, d < 10 ∧ c = digitChar d := by
  intro c hc
  unfold natChars at hc
  by_cases h0 : n = 0
  · rw [if_pos h0] at hc
    simp at hc
    exact ⟨0, by omega, by rw [hc]; rfl⟩
  · rw [if_neg h0] at hc
    exact natToDigits_digits n c hc

theorem natChars_ne_nil (n : Nat) : natChars n ≠ [] := by
  unfold natChars
  by_cases h0 : n = 0
  · rw [if_pos h0]; simp
  · rw [if_neg h0]; exact natToDigits_ne_nil n h0

theorem foldl_natChars (n : Nat) :
    (natChars n).foldl (fun acc c => acc * 10 + digitVal c) 0 = n := by
  unfold natChars
  by_cases h0 : n = 0
  · rw [if_pos h0]
    subst h0
    simp [digitVal]
  · rw [if_neg h0]
    rw [foldl_natToDigits n 0]
    simp

theorem parseDigitsAux_spec (ds : List Char) : ∀ (rest : List Char) (acc : Nat),
    (∀ c ∈ ds, ∃ d, d < 10 ∧ c = digitChar d) → noDigitStart rest →
    parseDigitsAux (ds ++ rest) acc = (ds.foldl (fun a c => a * 10 + digitVal c) acc, rest) := by
  induction ds with
  | nil =>
    intro rest acc _ hr
    match rest with
    | [] => rfl
    | c :: cs =>
      simp only [noDigitStart] at hr
      simp [parseDigitsAux, hr]
  | cons c ds ih =>
    intro rest acc hd hr
    obtain ⟨d, hd10, hcd⟩ := hd c (by simp)
    have hdig : isDigitChar c = true := by rw [hcd]; exact (digit_facts d hd10).2
    simp only [List.cons_append, parseDigitsAux, hdig, if_pos]
    show parseDigitsAux (ds ++ rest) (acc * 10 + digitVal c) = _
    rw [ih rest (acc * 10 + digitVal c) (fun x hx => hd x (by simp [hx])) hr]
    simp

theorem parsePosNum_natChars (n : Nat) (rest : List Char) (hr : noDigitStart rest) :
    parsePosNum (natChars n ++ rest) = some (n, rest) := by
  match hcs : natChars n with
  | [] => exact absurd hcs (natChars_ne_nil n)
  | c :: ds =>
    obtain ⟨d, hd10, hcd⟩ := natChars_digits n c (by rw [hcs]; simp)
    have hdig : isDigitChar c = true := by rw [hcd]; exact (digit_facts d hd10).2
    simp only [List.cons_append, parsePosNum, hdig, if_pos]
    rw [parseDigitsAux_spec ds rest (digitVal c)
      (fun x hx => natChars_digits n x (by rw [hcs]; simp [hx])) hr]
    have hfold : ds.foldl (fun a c => a * 10 + digitVal c) (digitVal c) = n := by
      have h0 := foldl_natChars n
      rw [hcs] at h0
      simpa using h0
    rw [hfold]

theorem parseStringBody_escape (s : List Char) : ∀ rest : List Char,
    parseStringBody (escapeChars s ++ '"' :: rest) = some (s, rest) := by
  induction s with
  | nil =>
    intro rest
    have h1 : ¬ (('"' : Char) = '\\') := by decide
    simp [escapeChars, parseStringBody, h1]
  | cons c s ih =>
    intro rest
    have hesc : escapeChars (c :: s) = escapeChar c ++ escapeChars s := rfl
    rw [hesc]
    by_cases hq : c = '"'
    · subst hq
      have h1 : (('"' : Char) = '"' ∨ ('"' : Char) = '\\') := Or.inl rfl
      simp only [escapeChar, if_pos rfl, List.cons_append, List.append_assoc]
      simp only [parseStringBody, if_pos rfl, List.append_eq, List.singleton_append,
        parseStringEsc, h1, if_true]
      rw [ih rest]
      rfl
    · by_cases hb : c = '\\'
      · subst hb
        have h1 : (('\\' : Char) = '"' ∨ ('\\' : Char) = '\\') := Or.inr rfl
        have h2 : ¬ (('\\' : Char) = '"') := by decide
        simp only [escapeChar, if_neg h2, if_pos rfl, List.cons_append, List.append_assoc]
        simp only [parseStringBody, if_pos rfl, List.append_eq, List.singleton_append,
          parseStringEsc, h1, if_true]
        rw [ih rest]
        rfl
      · simp only [escapeChar, if_neg hq, if_neg hb, List.cons_append, List.append_assoc,
          List.nil_append]
        simp only [parseStringBody, if_neg hq, if_neg hb]
        rw [ih rest]
        rfl

theorem noDigitStart_of_isDelim (rest : List Char) (h : isDelim rest) : noDigitStart rest := by
  match rest with
  | [] => trivial
  | c :: cs =>
    simp only [isDelim] at h
    simp only [noDigitStart]
    rcases h with h | h | h <;> subst h <;> decide

theorem isDelim_stringifyTail (xs : List Json) (rest : List Char) :
    isDelim (stringifyTail xs ++ ']' :: rest) := by
  match xs with
  | [] => simp [stringifyTail, isDelim]
  | x :: xs => simp [stringifyTail, isDelim]

theorem isDelim_stringifyObjTail (kvs : List (List Char × Json)) (rest : List Char) :
    isDelim (stringifyObjTail kvs ++ rbrace :: rest) := by
  match kvs with
  | [] => simp [stringifyObjTail, isDelim]
  | kv :: kvs => simp [stringifyObjTail, isDelim]

theorem parseKeyword_append (lit : List Char) (v : Json) (rest : List Char) :
    parseKeyword lit v (lit ++ rest) = some (v, rest) := by
  unfold parseKeyword
  rw [if_pos (by rw [List.isPrefixOf_iff_prefix]; exact List.prefix_append _ _)]
  rw [List.drop_left]

theorem stringifyChars_head (v : Json) :
    ∃ c cs, stringifyChars v = c :: cs ∧ c ≠ ']' ∧ c ≠ rbrace := by
  match v with
  | .null => exact ⟨'n', _, rfl, by decide, by decide⟩
  | .bool true => exact ⟨'t', _, rfl, by decide, by decide⟩
  | .bool false => exact ⟨'f', _, rfl, by decide, by decide⟩
  | .str s => exact ⟨'"', _, rfl, by decide, by decide⟩
  | .arr [] => exact ⟨'[', _, rfl, by decide, by decide⟩
  | .arr (x :: xs) => exact ⟨'[', _, rfl, by decide, by decide⟩
  | .obj [] => exact ⟨lbrace, _, rfl, by decide, by decide⟩
  | .obj (kv :: kvs) => exact ⟨lbrace, _, rfl, by decide, by decide⟩
  | .num n =>
    show ∃ c cs, intChars n = c :: cs ∧ c ≠ ']' ∧ c ≠ rbrace
    unfold intChars
    by_cases hn : n < 0
    · rw [if_pos hn]
      exact ⟨'-', _, rfl, by decide, by decide⟩
    · rw [if_neg hn]
      match hcs : natChars n.natAbs with
      | [] => exact absurd hcs (natChars_ne_nil _)
      | c :: ds =>
        obtain ⟨d, hd10, hcd⟩ := natChars_digits _ c (by rw [hcs]; simp)
        have hfacts := digitChar_not_special d hd10
        refine ⟨c, ds, rfl, ?_, ?_⟩
        · rw [hcd]; exact hfacts.2.2.2.2.2.2.2.1
        · rw [hcd]; exact hfacts.2.2.2.2.2.2.2.2.2.1

theorem parseVal_succ_n (f : Nat) (t : List Char) :
    parseVal (f+1) ('n' :: t) = parseKeyword ['u', 'l', 'l'] .null t := by
  simp [parseVal]

theorem parseVal_succ_t (f : Nat) (t : List Char) :
    parseVal (f+1) ('t' :: t) = parseKeyword ['r', 'u', 'e'] (.bool true) t := by
  simp [parseVal]

theorem parseVal_succ_f (f : Nat) (t : List Char) :
    parseVal (f+1) ('f' :: t) = parseKeyword ['a', 'l', 's', 'e'] (.bool false) t := by
  simp [parseVal]

theorem parseVal_succ_quote (f : Nat) (t : List Char) (s r : List Char)
    (h : parseStringBody t = some (s, r)) :
    parseVal (f+1) ('"' :: t) = some (.str s, r) := by
  simp [parseVal, h]

theorem parseVal_succ_lbracket (f : Nat) (t : List Char) :
    parseVal (f+1) ('[' :: t) = parseArrBody f t := by
  simp [parseVal]

theorem parseVal_succ_lbrace (f : Nat) (t : List Char) :
    parseVal (f+1) (lbrace :: t) = parseObjBody f t := by
  have h1 : ¬ (lbrace = 'n') := by decide
  have h2 : ¬ (lbrace = 't') := by decide
  have h3 : ¬ (lbrace = 'f') := by decide
  have h4 : ¬ (lbrace = '"') := by decide
  have h5 : ¬ (lbrace = '[') := by decide
  simp [parseVal, h1, h2, h3, h4, h5]

theorem parseVal_succ_minus (f : Nat) (t : List Char) (n : Nat) (r : List Char)
    (h : parsePosNum t = some (n, r)) :
    parseVal (f+1) ('-' :: t) = some (.num (-(n : Int)), r) := by
  have h1 : ¬ (('-' : Char) = lbrace) := by decide
  simp [parseVal, h1, h]

theorem parseVal_succ_digit (f : Nat) (c : Char) (t : List Char) (n : Nat) (r : List Char)
    (hdig : isDigitChar c = true)
    (h1 : c ≠ 'n') (h2 : c ≠ 't') (h3 : c ≠ 'f') (h4 : c ≠ '"') (h5 : c ≠ '[')
    (h6 : c ≠ lbrace) (h7 : c ≠ '-')
    (h : parsePosNum (c :: t) = some (n, r)) :
    parseVal (f+1) (c :: t) = some (.num (n : Int), r) := by
  simp [parseVal, hdig, h1, h2, h3, h4, h5, h6, h7, h]

theorem parseArrBody_succ_close (f : Nat) (t : List Char) :
    parseArrBody (f+1) (']' :: t) = some (.arr [], t) := by
  simp [parseArrBody]

theorem parseArrBody_succ_elem (f : Nat) (c : Char) (t : List Char) (v : Json)
    (vs : List Json) (r1 r2 : List Char) (hc : c ≠ ']')
    (hv : parseVal f (c :: t) = some (v, r1))
    (ht : parseArrTail f r1 = some (vs, r2)) :
    parseArrBody (f+1) (c :: t) = some (.arr (v :: vs), r2) := by
  simp [parseArrBody, hc, hv, ht]

theorem parseObjBody_succ_close (f : Nat) (t : List Char) :
    parseObjBody (f+1) (rbrace :: t) = some (.obj [], t) := by
  simp [parseObjBody]

theorem parseObjBody_succ_entry (f : Nat) (c : Char) (t : List Char)
    (kv : List Char × Json) (kvs : List (List Char × Json)) (r1 r2 : List Char)
    (hc : c ≠ rbrace)
    (he : parseEntry f (c :: t) = some (kv, r1))
    (ht : parseObjTail f r1 = some (kvs, r2)) :
    parseObjBody (f+1) (c :: t) = some (.obj (kv :: kvs), r2) := by
  simp [parseObjBody, hc, he, ht]

theorem parseArrTail_succ_close (f : Nat) (t : List Char) :
    parseArrTail (f+1) (']' :: t) = some ([], t) := by
  simp [parseArrTail]

theorem parseArrTail_succ_comma (f : Nat) (t : List Char) (v : Json) (vs : List Json)
    (r r2 : List Char)
    (hv : parseVal f t = some (v, r))
    (ht : parseArrTail f r = some (vs, r2)) :
    parseArrTail (f+1) (',' :: t) = some (v :: vs, r2) := by
  simp [parseArrTail, hv, ht]

theorem parseEntry_succ (f : Nat) (t : List Char) (k r : List Char)
    (h : parseStringBody t = some (k, r)) :
    parseEntry (f+1) ('"' :: t) = parseColonVal f k r := by
  simp [parseEntry, h]

theorem parseColonVal_succ (f : Nat) (k : List Char) (t : List Char) (v : Json) (r : List Char)
    (h : parseVal f t = some (v, r)) :
    parseColonVal (f+1) k (':' :: t) = some ((k, v), r) := by
  simp [parseColonVal, h]

theorem parseObjTail_succ_close (f : Nat) (t : List Char) :
    parseObjTail (f+1) (rbrace :: t) = some ([], t) := by
  simp [parseObjTail]

theorem parseObjTail_succ_comma (f : Nat) (t : List Char) (kv : List Char × Json)
    (kvs : List (List Char × Json)) (r r2 : List Char)
    (he : parseEntry f t = some (kv, r))
    (ht : parseObjTail f r = some (kvs, r2)) :
    parseObjTail (f+1) (',' :: t) = some (kv :: kvs, r2) := by
  have h1 : ¬ ((',' : Char) = rbrace) := by decide
  simp [parseObjTail, h1, he, ht]

mutual

theorem parseVal_rt (v : Json) (f : Nat) (rest : List Char)
    (hf : 3 * (stringifyChars v).length ≤ f) (hrest : isDelim rest) :
    parseVal f (stringifyChars v ++ rest) = some (v, rest) := by
  match v with
  | .null =>
    have hlen : (stringifyChars Json.null).length = 4 := rfl
    rw [hlen] at hf
    obtain ⟨g, rfl⟩ : ∃ g, f = g + 1 := ⟨f - 1, by omega⟩
    show parseVal (g+1) ('n' :: (['u', 'l', 'l'] ++ rest)) = some (.null, rest)
    rw [parseVal_succ_n, parseKeyword_append]
  | .bool true =>
    have hlen : (stringifyChars (Json.bool true)).length = 4 := rfl
    rw [hlen] at hf
    obtain ⟨g, rfl⟩ : ∃ g, f = g + 1 := ⟨f - 1, by omega⟩
    show parseVal (g+1) ('t' :: (['r', 'u', 'e'] ++ rest)) = some (.bool true, rest)
    rw [parseVal_succ_t, parseKeyword_append]
  | .bool false =>
    have hlen : (stringifyChars (Json.bool false)).length = 5 := rfl
    rw [hlen] at hf
    obtain ⟨g, rfl⟩ : ∃ g, f = g + 1 := ⟨f - 1, by omega⟩
    show parseVal (g+1) ('f' :: (['a', 'l', 's', 'e'] ++ rest)) = some (.bool false, rest)
    rw [parseVal_succ_f, parseKeyword_append]
  | .str s =>
    simp only [stringifyChars, List.length_cons, List.length_append, List.length_nil] at hf
    obtain ⟨g, rfl⟩ : ∃ g, f = g + 1 := ⟨f - 1, by omega⟩
    have hshape : stringifyChars (Json.str s) ++ rest
        = '"' :: (escapeChars s ++ ('"' :: rest)) := by
      simp [stringifyChars, List.append_assoc]
    rw [hshape]
    exact parseVal_succ_quote g _ s rest (parseStringBody_escape s rest)
  | .num n =>
    have hfi : 3 * (intChars n).length ≤ f := hf
    have hshape : stringifyChars (Json.num n) ++ rest = intChars n ++ rest := rfl
    rw [hshape]
    unfold intChars at hfi ⊢
    by_cases hn : n < 0
    · rw [if_pos hn] at hfi ⊢
      simp only [List.length_cons] at hfi
      obtain ⟨g, rfl⟩ : ∃ g, f = g + 1 := ⟨f - 1, by omega⟩
      show parseVal (g+1) ('-' :: (natChars n.natAbs ++ rest)) = some (.num n, rest)
      rw [parseVal_succ_minus g _ n.natAbs rest
        (parsePosNum_natChars n.natAbs rest (noDigitStart_of_isDelim rest hrest))]
      have hv : -((n.natAbs : Nat) : Int) = n := by omega
      rw [hv]
    · rw [if_neg hn] at hfi ⊢
      match hcs : natChars n.natAbs with
      | [] => exact absurd hcs (natChars_ne_nil _)
      | c :: ds =>
        obtain ⟨d, hd10, hcd⟩ := natChars_digits _ c (by rw [hcs]; simp)
        have hfacts := digitChar_not_special d hd10
        rw [hcs] at hfi
        simp only [List.length_cons] at hfi
        obtain ⟨g, rfl⟩ : ∃ g, f = g + 1 := ⟨f - 1, by omega⟩
        show parseVal (g+1) (c :: (ds ++ rest)) = some (.num n, rest)
        have hpp : parsePosNum (c :: (ds ++ rest)) = some (n.natAbs, rest) := by
          have := parsePosNum_natChars n.natAbs rest (noDigitStart_of_isDelim rest hrest)
          rw [hcs] at this
          simpa using this
        rw [parseVal_succ_digit g c (ds ++ rest) n.natAbs rest
          (by rw [hcd]; exact (digit_facts d hd10).2)
          (by rw [hcd]; exact hfacts.1) (by rw [hcd]; exact hfacts.2.1)
          (by rw [hcd]; exact hfacts.2.2.1) (by rw [hcd]; exact hfacts.2.2.2.1)
          (by rw [hcd]; exact hfacts.2.2.2.2.1) (by rw [hcd]; exact hfacts.2.2.2.2.2.1)
          (by rw [hcd]; exact hfacts.2.2.2.2.2.2.1) hpp]
        have hv : ((n.natAbs : Nat) : Int) = n := by omega
        rw [hv]
  | .arr [] =>
    simp only [stringifyChars, List.length_cons, List.length_nil] at hf
    obtain ⟨g, rfl⟩ : ∃ g, f = g + 1 := ⟨f - 1, by omega⟩
    show parseVal (g+1) ('[' :: (']' :: rest)) = some (.arr [], rest)
    rw [parseVal_succ_lbracket]
    obtain ⟨h, rfl⟩ : ∃ h, g = h + 1 := ⟨g - 1, by omega⟩
    exact parseArrBody_succ_close h rest
  | .arr (x :: xs) =>
    have hlen : (stringifyChars (Json.arr (x :: xs))).length
        = 2 + (stringifyChars x).length + (stringifyTail xs).length := by
      simp only [stringifyChars, List.length_cons, List.length_append, List.length_nil]
      omega
    rw [hlen] at hf
    obtain ⟨g, rfl⟩ : ∃ g, f = g + 1 := ⟨f - 1, by omega⟩
    have hshape : stringifyChars (Json.arr (x :: xs)) ++ rest
        = '[' :: (stringifyChars x ++ (stringifyTail xs ++ (']' :: rest))) := by
      simp [stringifyChars, List.append_assoc]
    rw [hshape, parseVal_succ_lbracket]
    obtain ⟨h, rfl⟩ : ∃ h, g = h + 1 := ⟨g - 1, by omega⟩
    obtain ⟨cx, tx, hcx, hne, _⟩ := stringifyChars_head x
    have hv : parseVal h (cx :: (tx ++ (stringifyTail xs ++ (']' :: rest))))
        = some (x, stringifyTail xs ++ (']' :: rest)) := by
      have e : cx :: (tx ++ (stringifyTail xs ++ (']' :: rest)))
          = stringifyChars x ++ (stringifyTail xs ++ (']' :: rest)) := by rw [hcx]; rfl
      rw [e]
      exact parseVal_rt x h _ (by omega) (isDelim_stringifyTail xs rest)
    have ht : parseArrTail h (stringifyTail xs ++ (']' :: rest)) = some (xs, rest) :=
      parseArrTail_rt xs h rest (by omega) hrest
    rw [show stringifyChars x ++ (stringifyTail xs ++ (']' :: rest))
        = cx :: (tx ++ (stringifyTail xs ++ (']' :: rest))) by rw [hcx]; rfl]
    exact parseArrBody_succ_elem h cx _ x xs _ rest hne hv ht
  | .obj [] =>
    simp only [stringifyChars, List.length_cons, List.length_nil] at hf
    obtain ⟨g, rfl⟩ : ∃ g, f = g + 1 := ⟨f - 1, by omega⟩
    show parseVal (g+1) (lbrace :: (rbrace :: rest)) = some (.obj [], rest)
    rw [parseVal_succ_lbrace]
    obtain ⟨h, rfl⟩ : ∃ h, g = h + 1 := ⟨g - 1, by omega⟩
    exact parseObjBody_succ_close h rest
  | .obj (kv :: kvs) =>
    have hlen : (stringifyChars (Json.obj (kv :: kvs))).length
        = 2 + (entryChars kv).length + (stringifyObjTail kvs).length := by
      simp only [stringifyChars, List.length_cons, List.length_append, List.length_nil]
      omega
    rw [hlen] at hf
    obtain ⟨g, rfl⟩ : ∃ g, f = g + 1 := ⟨f - 1, by omega⟩
    have hshape : stringifyChars (Json.obj (kv :: kvs)) ++ rest
        = lbrace :: (entryChars kv ++ (stringifyObjTail kvs ++ (rbrace :: rest))) := by
      simp [stringifyChars, List.append_assoc]
    rw [hshape, parseVal_succ_lbrace]
    obtain ⟨h, rfl⟩ : ∃ h, g = h + 1 := ⟨g - 1, by omega⟩
    match kv with
    | (k, v0) =>
      have hent : entryChars (k, v0)
          = '"' :: (escapeChars k ++ ['"', ':'] ++ stringifyChars v0) := rfl
      have hq : ¬ (('"' : Char) = rbrace) := by decide
      have he : parseEntry h (entryChars (k, v0) ++ (stringifyObjTail kvs ++ (rbrace :: rest)))
          = some ((k, v0), stringifyObjTail kvs ++ (rbrace :: rest)) :=
        parseEntry_rt (k, v0) h _ (by omega) (isDelim_stringifyObjTail kvs rest)
      have ht : parseObjTail h (stringifyObjTail kvs ++ (rbrace :: rest)) = some (kvs, rest) :=
        parseObjTail_rt kvs h rest (by omega) hrest
      have hx : entryChars (k, v0) ++ (stringifyObjTail kvs ++ (rbrace :: rest))
          = '"' :: ((escapeChars k ++ ['"', ':'] ++ stringifyChars v0)
              ++ (stringifyObjTail kvs ++ (rbrace :: rest))) := by rw [hent]; rfl
      rw [hx] at he ⊢
      exact parseObjBody_succ_entry h '"' _ (k, v0) kvs _ rest hq he ht

theorem parseArrTail_rt (xs : List Json) (f : Nat) (rest : List Char)
    (hf : 3 * (stringifyTail xs).length + 3 ≤ f) (hrest : isDelim rest) :
    parseArrTail f (stringifyTail xs ++ ']' :: rest) = some (xs, rest) := by
  match xs with
  | [] =>
    obtain ⟨g, rfl⟩ : ∃ g, f = g + 1 := ⟨f - 1, by omega⟩
    show parseArrTail (g+1) (']' :: rest) = some ([], rest)
    exact parseArrTail_succ_close g rest
  | x :: xs =>
    have hlen : (stringifyTail (x :: xs)).length
        = 1 + (stringifyChars x).length + (stringifyTail xs).length := by
      simp only [stringifyTail, List.length_cons, List.length_append]
      omega
    rw [hlen] at hf
    obtain ⟨g, rfl⟩ : ∃ g, f = g + 1 := ⟨f - 1, by omega⟩
    have hshape : stringifyTail (x :: xs) ++ ']' :: rest
        = ',' :: (stringifyChars x ++ (stringifyTail xs ++ (']' :: rest))) := by
      simp [stringifyTail, List.append_assoc]
    rw [hshape]
    have hv : parseVal g (stringifyChars x ++ (stringifyTail xs ++ (']' :: rest)))
        = some (x, stringifyTail xs ++ (']' :: rest)) :=
      parseVal_rt x g _ (by omega) (isDelim_stringifyTail xs rest)
    have ht : parseArrTail g (stringifyTail xs ++ (']' :: rest)) = some (xs, rest) :=
      parseArrTail_rt xs g rest (by omega) hrest
    exact parseArrTail_succ_comma g _ x xs _ rest hv ht

theorem parseEntry_rt (kv : List Char × Json) (f : Nat) (rest : List Char)
    (hf : 3 * (entryChars kv).length ≤ f) (hrest : isDelim rest) :
    parseEntry f (entryChars kv ++ rest) = some (kv, rest) := by
  match kv with
  | (k, v) =>
    have hlen : (entryChars (k, v)).length
        = 3 + (escapeChars k).length + (stringifyChars v).length := by
      simp only [entryChars, List.length_cons, List.length_append, List.length_nil]
      omega
    rw [hlen] at hf
    obtain ⟨g, rfl⟩ : ∃ g, f = g + 1 := ⟨f - 1, by omega⟩
    have hshape : entryChars (k, v) ++ rest
        = '"' :: (escapeChars k ++ ('"' :: (':' :: (stringifyChars v ++ rest)))) := by
      simp [entryChars, List.append_assoc]
    rw [hshape]
    rw [parseEntry_succ g _ k (':' :: (stringifyChars v ++ rest))
      (parseStringBody_escape k (':' :: (stringifyChars v ++ rest)))]
    obtain ⟨h, rfl⟩ : ∃ h, g = h + 1 := ⟨g - 1, by omega⟩
    exact parseColonVal_succ h k _ v rest (parseVal_rt v h rest (by omega) hrest)

theorem parseObjTail_rt (kvs : List (List Char × Json)) (f : Nat) (rest : List Char)
    (hf : 3 * (stringifyObjTail kvs).length + 3 ≤ f) (hrest : isDelim rest) :
    parseObjTail f (stringifyObjTail kvs ++ rbrace :: rest) = some (kvs, rest) := by
  match kvs with
  | [] =>
    obtain ⟨g, rfl⟩ : ∃ g, f = g + 1 := ⟨f - 1, by omega⟩
    show parseObjTail (g+1) (rbrace :: rest) = some ([], rest)
    exact parseObjTail_succ_close g rest
  | kv :: kvs =>
    have hlen : (stringifyObjTail (kv :: kvs)).length
        = 1 + (entryChars kv).length + (stringifyObjTail kvs).length := by
      simp only [stringifyObjTail, List.length_cons, List.length_append]
      omega
    rw [hlen] at hf
    obtain ⟨g, rfl⟩ : ∃ g, f = g + 1 := ⟨f - 1, by omega⟩
    have hshape : stringifyObjTail (kv :: kvs) ++ rbrace :: rest
        = ',' :: (entryChars kv ++ (stringifyObjTail kvs ++ (rbrace :: rest))) := by
      simp [stringifyObjTail, List.append_assoc]
    rw [hshape]
    have he : parseEntry g (entryChars kv ++ (stringifyObjTail kvs ++ (rbrace :: rest)))
        = some (kv, stringifyObjTail kvs ++ (rbrace :: rest)) :=
      parseEntry_rt kv g _ (by omega) (isDelim_stringifyObjTail kvs rest)
    have ht : parseObjTail g (stringifyObjTail kvs ++ (rbrace :: rest)) = some (kvs, rest) :=
      parseObjTail_rt kvs g rest (by omega) hrest
    exact parseObjTail_succ_comma g _ kv kvs _ rest he ht

end

theorem parseJson_stringify (v : Json) : parseJson (stringifyChars v) = some v := by
  unfold parseJson
  rw [show parseVal (3 * (stringifyChars v).length + 3) (stringifyChars v)
      = parseVal (3 * (stringifyChars v).length + 3) (stringifyChars v ++ []) by simp]
  rw [parseVal_rt v (3 * (stringifyChars v).length + 3) [] (by omega) trivial]

theorem stringifyChars_injective (a b : Json) (h : stringifyChars a = stringifyChars b) :
    a = b := by
  have ha := parseJson_stringify a
  rw [h, parseJson_stringify b] at ha
  exact (Option.some.inj ha).symm

/-- C9: merging through buildModelConfig with no backup present is the identity. -/
theorem buildModelConfig_no_backup_id (primaryConfig : ModelConfig) :
    buildModelConfig primaryConfig none = primaryConfig := rfl

/-- C6: the fallback-derived config takes model from the backup; temperature, maxTokens and
maxRetries from the backup when set and from the primary otherwise; and clears backupModel. -/
theorem buildModelConfig_merges_backup (p : ModelConfig) (b : BackupModelConfig) :
    (buildModelConfig p (some b)).model = b.model
    ∧ (∀ t, b.temperature = some t → (buildModelConfig p (some b)).temperature = t)
    ∧ (b.temperature = none → (buildModelConfig p (some b)).temperature = p.temperature)
    ∧ (∀ t, b.maxTokens = some t → (buildModelConfig p (some b)).maxTokens = t)
    ∧ (b.maxTokens = none → (buildModelConfig p (some b)).maxTokens = p.maxTokens)
    ∧ (∀ t, b.maxRetries = some t → (buildModelConfig p (some b)).maxRetries = t)
    ∧ (b.maxRetries = none → (buildModelConfig p (some b)).maxRetries = p.maxRetries)
    ∧ (buildModelConfig p (some b)).backupModel = none := by
  refine ⟨rfl, ?_, ?_, ?_, ?_, ?_, ?_, rfl⟩ <;> intro h
  all_goals try intro hh
  · simp [buildModelConfig, hh]
  · simp [buildModelConfig, h]
  · simp [buildModelConfig, hh]
  · simp [buildModelConfig, h]
  · simp [buildModelConfig, hh]
  · simp [buildModelConfig, h]

theorem buildModelConfig_merges_backup_witness :
    (buildModelConfig samplePrimaryConfig (some sampleBackupConfig)).model
      = sampleBackupConfig.model
    ∧ (buildModelConfig samplePrimaryConfig (some sampleBackupConfig)).temperature = 0
    ∧ (buildModelConfig samplePrimaryConfig (some sampleBackupConfig)).maxTokens
      = samplePrimaryConfig.maxTokens
    ∧ (buildModelConfig samplePrimaryConfig (some sampleBackupConfig)).backupModel = none := by
  obtain ⟨h1, h2, h3, h4, h5, h6, h7, h8⟩ :=
    buildModelConfig_merges_backup samplePrimaryConfig sampleBackupConfig
  exact ⟨h1, h2 0 rfl, h5 rfl, h8⟩

/-- C3 counterexample: the claimed value 0.75 * d = 750 (attempt 1, d = 1000) is inside the
range the claim asserts attainable, yet no random draw in [0, 1) produces it. -/
theorem backoff_claimed_range_not_attainable :
    ¬ ∃ r : ℚ, 0 ≤ r ∧ r < 1 ∧ exponentialBackoff 1 r = 750 := by
  rintro ⟨r, h0, h1, he⟩
  simp only [exponentialBackoff] at he
  norm_num at he
  linarith

/-- C3 amended: the delay is d plus jitter d * 0.25 * (r - 0.5) with r uniform in [0, 1):
it always lies in the half-open interval [0.875 * d, 1.125 * d) - a jitter of at most
plus or minus 12.5 percent - and exactly the values of that interval are attainable. -/
theorem backoff_jitter_bounds (n : Nat) (rand : ℚ)
    (hn : 1 ≤ n) (h0 : 0 ≤ rand) (h1 : rand < 1) :
    exponentialBackoff n rand
      = backoffBaseDelay n + backoffBaseDelay n * (1/4) * (rand - 1/2)
    ∧ (7/8) * backoffBaseDelay n ≤ exponentialBackoff n rand
    ∧ exponentialBackoff n rand < (9/8) * backoffBaseDelay n
    ∧ ∀ x : ℚ, (7/8) * backoffBaseDelay n ≤ x → x < (9/8) * backoffBaseDelay n →
        ∃ r2 : ℚ, 0 ≤ r2 ∧ r2 < 1 ∧ exponentialBackoff n r2 = x := by
  have hd : 0 < backoffBaseDelay n := by
    apply lt_min
    · positivity
    · norm_num
  have heq : ∀ r : ℚ, exponentialBackoff n r
      = backoffBaseDelay n + backoffBaseDelay n * (1/4) * (r - 1/2) := by
    intro r
    rfl
  refine ⟨heq rand, ?_, ?_, ?_⟩
  · rw [heq rand]
    nlinarith [mul_nonneg (le_of_lt hd) h0]
  · rw [heq rand]
    nlinarith [mul_lt_mul_of_pos_left h1 hd]
  · intro x hx1 hx2
    refine ⟨(x - (7/8) * backoffBaseDelay n) * 4 / backoffBaseDelay n, ?_, ?_, ?_⟩
    · apply div_nonneg
      · nlinarith
      · exact le_of_lt hd
    · rw [div_lt_one hd]
      nlinarith
    · rw [heq]
      field_simp
      ring

theorem backoff_jitter_bounds_witness :
    exponentialBackoff 1 0
      = backoffBaseDelay 1 + backoffBaseDelay 1 * (1/4) * (0 - 1/2)
    ∧ (7/8) * backoffBaseDelay 1 ≤ exponentialBackoff 1 0
    ∧ exponentialBackoff 1 0 < (9/8) * backoffBaseDelay 1 := by
  have h := backoff_jitter_bounds 1 0 (by norm_num) (by norm_num) (by norm_num)
  exact ⟨h.1, h.2.1, h.2.2.1⟩

/-- C5 counterexample: a before-hook rewrites the arguments from 1 to 2; the tool receives 2
(visible in the tool result and the tool_complete event), but the tool_start event still
carries the original argument 1, not the rewritten one. -/
theorem tool_start_args_cx :
    (executeToolsWithHooks [revealTool] rewriteHooks
        [Msg.ai [] [⟨"1".toList, "t".toList, Json.num 1⟩] none]).events
      = [StreamEvent.toolStart "t".toList (Json.num 1) "1".toList,
         StreamEvent.toolComplete "1".toList (Json.num 2) "t".toList (Json.arr [Json.num 2])]
    ∧ Json.num 1 ≠ Json.num 2 := by
  refine ⟨rfl, ?_⟩
  simp

/-- C5 amended: for a resolved tool call whose before-hook rewrites the arguments, the
tool_start event carries the original model-supplied arguments; the rewritten arguments are
what the tool is invoked with and what the tool_complete event carries. -/
theorem tool_start_original_args (tools : List ToolDef) (hooks : Hooks) (st : BatchState)
    (toolCall : ToolCall) (tool : ToolDef) (hookFn : List Char → Json → List Msg → Json)
    (out : Json)
    (hfind : tools.find? (fun t => t.name == toolCall.name) = some tool)
    (hhook : hooks.beforeToolCall = some hookFn)
    (hinv : tool.invoke (hookFn toolCall.name toolCall.args st.currentMessages) = .ok out) :
    processToolCall tools hooks st toolCall
    = { toolMessages := st.toolMessages ++ [Msg.tool (renderToolContent out) toolCall.id]
        currentMessages := st.currentMessages ++ [Msg.tool (renderToolContent out) toolCall.id]
        shouldStopAfterTools := st.shouldStopAfterTools ||
          afterHookStop hooks toolCall (hookFn toolCall.name toolCall.args st.currentMessages)
            out (st.currentMessages ++ [Msg.tool (renderToolContent out) toolCall.id])
        events := st.events
          ++ [StreamEvent.toolStart toolCall.name toolCall.args toolCall.id,
              StreamEvent.toolComplete toolCall.id
                (hookFn toolCall.name toolCall.args st.currentMessages) toolCall.name out] } := by
  unfold processToolCall
  rw [hfind]
  have hargs : hookRewrittenArgs hooks toolCall st.currentMessages
      = hookFn toolCall.name toolCall.args st.currentMessages := by
    unfold hookRewrittenArgs
    rw [hhook]
  simp only [hargs, hinv]

theorem tool_start_original_args_witness :
    processToolCall [revealTool] rewriteHooks
      { toolMessages := [], currentMessages := [], shouldStopAfterTools := false, events := [] }
      ⟨"1".toList, "t".toList, Json.num 1⟩
    = { toolMessages := [Msg.tool (renderToolContent (Json.arr [Json.num 2])) "1".toList]
        currentMessages := [Msg.tool (renderToolContent (Json.arr [Json.num 2])) "1".toList]
        shouldStopAfterTools := false
        events := [StreamEvent.toolStart "t".toList (Json.num 1) "1".toList,
          StreamEvent.toolComplete "1".toList (Json.num 2) "t".toList
            (Json.arr [Json.num 2])] } := by
  have h := tool_start_original_args [revealTool] rewriteHooks
    { toolMessages := [], currentMessages := [], shouldStopAfterTools := false, events := [] }
    ⟨"1".toList, "t".toList, Json.num 1⟩ revealTool (fun _ _ _ => Json.num 2)
    (Json.arr [Json.num 2]) rfl rfl rfl
  simpa using h

/-- C1: the model requests the unknown tool "ghost" followed by the registered tool "real"
in one batch. The tool node synthesizes the tool-result "Error: Tool ghost not found" into
its internal toolMessages list and continues with the remaining call, but the
length-mismatch branch then returns the history without the synthesized error result, so
it never reaches the graph state; the run continues to the next agent turn, and the final
toolCalls contains only the resolved call - the unresolved one is excluded because its
error result was dropped. -/
theorem missing_tool_result_dropped :
    (executeToolsWithHooks [realTool] noHooks ghostBatchHistory).toolMessages
      = [Msg.tool (toolNotFoundContent "ghost".toList) "1".toList,
         Msg.tool (renderToolContent Json.null) "2".toList]
    ∧ (executeToolsWithHooks [realTool] noHooks ghostBatchHistory).update
      = ghostBatchHistory ++ [Msg.tool (renderToolContent Json.null) "2".toList]
    ∧ Msg.tool (toolNotFoundContent "ghost".toList) "1".toList
        ∉ (executeToolsWithHooks [realTool] noHooks ghostBatchHistory).update
    ∧ executeAgentTry ghostLLM [realTool] noHooks samplePrimaryConfig
        "q".toList "s".toList 10
      = .ok ({ response := "done".toList,
               toolCalls := [{ tool := "real".toList, input := Json.obj [],
                               output := Json.null }],
               iterations := 4, error := [], success := true }, 2) := by
  refine ⟨rfl, rfl, ?_, rfl⟩
  intro hmem
  simp [executeToolsWithHooks, lastMessageToolCalls, processToolCall, ghostBatchHistory,
    ghostCall, realCall, realTool, noHooks, hookRewrittenArgs, afterHookStop,
    toolNotFoundContent] at hmem

/-- C4 counterexample: message "2+2?" with an empty tool set and a plain text answer on the
first model invocation yields exactly one invocation, zero tool calls and success, but the
reported iterations value is 2 (the final message-history length), not 1 as claimed. -/
theorem one_shot_iterations_cx :
    executeAgentTry plainAnswerLLM [] noHooks samplePrimaryConfig
        "2+2?".toList "You are a helpful AI assistant".toList 10
      = .ok ({ response := "4".toList, toolCalls := [], iterations := 2,
               error := [], success := true }, 1)
    ∧ (2 : Nat) ≠ 1 := ⟨rfl, by decide⟩

/-- C4 amended: with an empty tool set and a model that answers in plain text on its first
invocation, exactly one model invocation occurs, the final toolCalls is empty, success is
true, and iterations equals 2: the engine reports the length of the final message history
(the human message plus the single AI answer), not the number of agent turns. -/
theorem one_shot_execution (env : AgentEnv) (cfg : ModelConfig)
    (message systemPrompt content : List Char) (k : Nat)
    (htools : env.tools = [])
    (hjson : cfg.jsonMode = false)
    (hinit : env.init cfg = .ok ())
    (hllm : env.llm cfg [Msg.human systemPrompt, Msg.human message]
      = .ok { content := content, toolCalls := [], finishReason := none }) :
    executeAgentTry (env.llm cfg) env.tools env.hooks cfg message systemPrompt (k+1)
      = .ok ({ response := content, toolCalls := [], iterations := 2,
               error := [], success := true }, 1)
    ∧ performAction env message systemPrompt (k+1) cfg
      = { response := content, toolCalls := [], iterations := 2,
          error := [], success := true } := by
  have h1 : executeAgentTry (env.llm cfg) env.tools env.hooks cfg message systemPrompt (k+1)
      = .ok ({ response := content, toolCalls := [], iterations := 2,
               error := [], success := true }, 1) := by
    unfold executeAgentTry runGraph
    rw [htools]
    rw [show (Msg.human systemPrompt :: [Msg.human message])
        = [Msg.human systemPrompt, Msg.human message] from rfl]
    rw [hllm]
    simp only [List.isEmpty_nil, if_true]
    simp [extractToolCalls, updateToolCallMap, lastAiMessage, isAiMsg, responseOf,
      msgContent, msgFinishReason, formatFinalResponse, hjson]
  refine ⟨h1, ?_⟩
  unfold performAction executeWithModel
  rw [hinit, h1]

theorem one_shot_execution_witness :
    performAction witnessEnv "2+2?".toList "You are a helpful AI assistant".toList 10
        samplePrimaryConfig
      = { response := "4".toList, toolCalls := [], iterations := 2,
          error := [], success := true } :=
  (one_shot_execution witnessEnv samplePrimaryConfig "2+2?".toList
    "You are a helpful AI assistant".toList "4".toList 9 rfl rfl rfl rfl).2

/-- C2 counterexample: a model-invocation failure whose thrown Error carries an empty message
still produces a non-throwing result record, but its error field is the empty string, so the
failure case does not always carry a non-empty error message. -/
theorem engine_boundary_empty_error_cx :
    (performAction emptyErrorEnv "m".toList "s".toList 10 samplePrimaryConfig).success = false
    ∧ (performAction emptyErrorEnv "m".toList "s".toList 10 samplePrimaryConfig).error
      = [] := by
  have h : performAction emptyErrorEnv "m".toList "s".toList 10 samplePrimaryConfig
      = executionErrorResult (.err []) 0 [] := by
    unfold performAction executeWithModel
    rfl
  rw [h]
  exact ⟨rfl, rfl⟩

/-- C2 amended: the top-level action never lets an exception escape - it always produces a
result record with success and error fields. A throw that escapes the per-execution catch is
mapped to success false with error equal to the thrown Error message (or "Unknown error"
for a non-Error throw), which is empty exactly when the Error message was empty; a
non-throwing execution returns its result record verbatim. -/
theorem engine_boundary_result (env : AgentEnv) (message systemPrompt : List Char)
    (maxIterations : Nat) (cfg : ModelConfig) :
    (∀ e, executeWithModel env message systemPrompt maxIterations cfg = .error e →
      performAction env message systemPrompt maxIterations cfg
        = { response := "Error: ".toList ++ errMessageOf e, success := false,
            toolCalls := [], error := errMessageOf e, iterations := 0 })
    ∧ (∀ r n, executeWithModel env message systemPrompt maxIterations cfg = .ok (r, n) →
      performAction env message systemPrompt maxIterations cfg = r) := by
  constructor
  · intro e he
    unfold performAction
    rw [he]
  · intro r n hr
    unfold performAction
    rw [hr]

theorem engine_boundary_result_witness :
    performAction initFailEnv "m".toList "s".toList 10 samplePrimaryConfig
      = { response := "Error: ".toList ++ "No API credentials provided".toList,
          success := false, toolCalls := [],
          error := "No API credentials provided".toList, iterations := 0 } := by
  have h := (engine_boundary_result initFailEnv "m".toList "s".toList 10
    samplePrimaryConfig).1 (.err "No API credentials provided".toList)
  apply h
  unfold executeWithModel
  rfl

theorem executeWithModel_no_backup_count (env : AgentEnv)
    (message systemPrompt : List Char) (maxIterations : Nat) (cfg : ModelConfig)
    (r : AIAgentResult) (n : Nat)
    (hnb : cfg.backupModel = none)
    (h : executeWithModel env message systemPrompt maxIterations cfg = .ok (r, n)) :
    n = 1 := by
  unfold executeWithModel at h
  split at h
  · exact absurd h (by simp)
  · split at h
    · injection h with h1
      injection h1 with _ h2
      exact h2.symm
    · split at h
      · rename_i heq
        rw [hnb] at heq
        exact absurd heq (by simp)
      · injection h with h1
        injection h1 with _ h2
        exact h2.symm

/-- C7: the backup-model configuration carries no backupModel of its own at the type level,
the fallback-derived config always has backupModel cleared, and consequently any completed
run performs at most two whole-model executions, that is, at most one fallback
re-execution. -/
theorem fallback_single_level (env : AgentEnv) (message systemPrompt : List Char)
    (maxIterations : Nat) (cfg : ModelConfig) (b : BackupModelConfig)
    (r : AIAgentResult) (n : Nat)
    (h : executeWithModel env message systemPrompt maxIterations cfg = .ok (r, n)) :
    (buildModelConfig cfg (some b)).backupModel = none ∧ n ≤ 2 := by
  refine ⟨rfl, ?_⟩
  cases hb : cfg.backupModel with
  | none =>
    rw [executeWithModel_no_backup_count env message systemPrompt maxIterations cfg r n hb h]
    omega
  | some b2 =>
    unfold executeWithModel at h
    split at h
    · exact absurd h (by simp)
    · split at h
      · injection h with h1
        injection h1 with _ h2
        omega
      · split at h
        · split at h
          · rename_i r0 n0 hrec
            injection h with h1
            injection h1 with _ h2
            have hn0 : n0 = 1 := executeWithModel_no_backup_count env message systemPrompt
              maxIterations _ r0 n0 rfl hrec
            omega
          · exact absurd h (by simp)
        · rename_i heq
          rw [hb] at heq
          exact absurd heq (by simp)

theorem fallback_single_level_witness :
    (buildModelConfig samplePrimaryConfig (some sampleBackupConfig)).backupModel = none
    ∧ (1 : Nat) ≤ 2 := by
  have hrun : executeWithModel witnessEnv "2+2?".toList "s".toList 10 samplePrimaryConfig
      = .ok ({ response := "4".toList, toolCalls := [], iterations := 2,
               error := [], success := true }, 1) := by
    unfold executeWithModel
    rfl
  exact fallback_single_level witnessEnv "2+2?".toList "s".toList 10 samplePrimaryConfig
    sampleBackupConfig _ 1 hrun

theorem processToolCall_currentMessages (tools : List ToolDef) (hooks : Hooks)
    (st : BatchState) (tc : ToolCall) :
    ∃ extra : List Msg, (processToolCall tools hooks st tc).currentMessages
        = st.currentMessages ++ extra
      ∧ ∀ m ∈ extra, isAiMsg m = false := by
  unfold processToolCall
  cases hfind : tools.find? (fun t => t.name == tc.name) with
  | none => exact ⟨[], by simp, by simp⟩
  | some tool =>
    cases hinv : tool.invoke (hookRewrittenArgs hooks tc st.currentMessages) with
    | ok toolOutput =>
      exact ⟨[Msg.tool (renderToolContent toolOutput) tc.id], by simp [hinv],
        by simp [isAiMsg]⟩
    | error emsg =>
      exact ⟨[Msg.tool ("Error: ".toList ++ emsg) tc.id], by simp [hinv],
        by simp [isAiMsg]⟩

theorem foldl_processToolCall_currentMessages (tools : List ToolDef) (hooks : Hooks)
    (tcs : List ToolCall) : ∀ st : BatchState,
    ∃ extra : List Msg, (tcs.foldl (processToolCall tools hooks) st).currentMessages
        = st.currentMessages ++ extra
      ∧ ∀ m ∈ extra, isAiMsg m = false := by
  induction tcs with
  | nil => exact fun st => ⟨[], by simp, by simp⟩
  | cons tc tcs ih =>
    intro st
    obtain ⟨e1, he1, hn1⟩ := processToolCall_currentMessages tools hooks st tc
    obtain ⟨e2, he2, hn2⟩ := ih (processToolCall tools hooks st tc)
    refine ⟨e1 ++ e2, ?_, ?_⟩
    · simp only [List.foldl_cons, he2, he1, List.append_assoc]
    · intro m hm
      rcases List.mem_append.mp hm with h | h
      · exact hn1 m h
      · exact hn2 m h

theorem executeToolsWithHooks_newState (tools : List ToolDef) (hooks : Hooks)
    (messages : List Msg) :
    ∃ extra : List Msg, (executeToolsWithHooks tools hooks messages).newState
        = messages ++ extra
      ∧ ∀ m ∈ extra, isAiMsg m = false := by
  unfold executeToolsWithHooks
  exact foldl_processToolCall_currentMessages tools hooks (lastMessageToolCalls messages) _

theorem lastAiMessage_append_nonAi (msgs extra : List Msg)
    (hextra : ∀ m ∈ extra, isAiMsg m = false) :
    lastAiMessage (msgs ++ extra) = lastAiMessage msgs := by
  unfold lastAiMessage
  rw [List.filter_append]
  have h : extra.filter isAiMsg = [] := by
    rw [List.filter_eq_nil_iff]
    intro m hm
    simp [hextra m hm]
  rw [h, List.append_nil]

theorem lastAiMessage_concat_ai (msgs : List Msg) (c : List Char) (tcs : List ToolCall)
    (fr : Option (List Char)) :
    lastAiMessage (msgs ++ [Msg.ai c tcs fr]) = some (Msg.ai c tcs fr) := by
  unfold lastAiMessage
  rw [List.filter_append]
  have h : [Msg.ai c tcs fr].filter isAiMsg = [Msg.ai c tcs fr] := by
    simp [isAiMsg]
  rw [h, List.getLast?_concat]

/-- C8: when an after-hook requests a stop during a tool batch, the graph goes from the
tools node straight to the end state once the batch completes: no further model invocation
occurs, and the final response is the content of the last AI message already in the history
(the one that issued the batch). -/
theorem after_hook_stop_ends_run (llm : List Msg → Except JsThrown AIResp)
    (tools : List ToolDef) (hooks : Hooks) (systemPrompt : List Char)
    (fuel : Nat) (messages : List Msg) (invocations : Nat) (resp : AIResp)
    (htools : tools.isEmpty = false)
    (hllm : llm (Msg.human systemPrompt :: messages) = .ok resp)
    (hcalls : resp.toolCalls ≠ [])
    (hstop : (executeToolsWithHooks tools hooks
        (messages ++ [Msg.ai resp.content resp.toolCalls resp.finishReason])).stop = true) :
    runGraph llm tools hooks systemPrompt (fuel + 2) messages invocations
      = .ok ((executeToolsWithHooks tools hooks
          (messages ++ [Msg.ai resp.content resp.toolCalls resp.finishReason])).newState,
        invocations + 1)
    ∧ lastAiMessage ((executeToolsWithHooks tools hooks
        (messages ++ [Msg.ai resp.content resp.toolCalls resp.finishReason])).newState)
      = some (Msg.ai resp.content resp.toolCalls resp.finishReason)
    ∧ responseOf ((executeToolsWithHooks tools hooks
        (messages ++ [Msg.ai resp.content resp.toolCalls resp.finishReason])).newState)
      = resp.content := by
  have h2 : lastAiMessage ((executeToolsWithHooks tools hooks
      (messages ++ [Msg.ai resp.content resp.toolCalls resp.finishReason])).newState)
      = some (Msg.ai resp.content resp.toolCalls resp.finishReason) := by
    obtain ⟨extra, hex, hnonai⟩ := executeToolsWithHooks_newState tools hooks
      (messages ++ [Msg.ai resp.content resp.toolCalls resp.finishReason])
    rw [hex]
    rw [lastAiMessage_append_nonAi _ _ hnonai]
    exact lastAiMessage_concat_ai messages resp.content resp.toolCalls resp.finishReason
  have h3 : responseOf ((executeToolsWithHooks tools hooks
      (messages ++ [Msg.ai resp.content resp.toolCalls resp.finishReason])).newState)
      = resp.content := by
    unfold responseOf
    rw [h2]
    rfl
  refine ⟨?_, h2, h3⟩
  obtain ⟨tc, tcs, hc⟩ : ∃ tc tcs, resp.toolCalls = tc :: tcs := by
    match hx : resp.toolCalls with
    | [] => exact absurd hx hcalls
    | tc :: tcs => exact ⟨tc, tcs, rfl⟩
  have hcont : shouldContinue
      (messages ++ [Msg.ai resp.content resp.toolCalls resp.finishReason])
      = GraphTarget.tools := by
    unfold shouldContinue
    rw [List.getLast?_concat, hc]
  show runGraph llm tools hooks systemPrompt ((fuel + 1) + 1) messages invocations = _
  unfold runGraph
  rw [hllm]
  simp only [htools, Bool.false_eq_true, if_false, hcont]
  rw [hstop]
  rfl

theorem after_hook_stop_ends_run_witness :
    runGraph stopLLM [stopTool] stopHooks "s".toList 2 [Msg.human "q".toList] 0
      = .ok ((executeToolsWithHooks [stopTool] stopHooks
          ([Msg.human "q".toList] ++ [Msg.ai "using tool".toList [stopCall] none])).newState, 1)
    ∧ responseOf ((executeToolsWithHooks [stopTool] stopHooks
        ([Msg.human "q".toList] ++ [Msg.ai "using tool".toList [stopCall] none])).newState)
      = "using tool".toList := by
  have h := after_hook_stop_ends_run stopLLM [stopTool] stopHooks "s".toList 0
    [Msg.human "q".toList] 0
    { content := "using tool".toList, toolCalls := [stopCall], finishReason := none }
    rfl rfl (by simp) rfl
  exact ⟨h.1, h.2.2⟩

/-- C10: tool outputs round-trip through the message history. A successfully executed tool
call whose tool returns a non-string JSON value v stores JSON.stringify(v) in the
tool-result message, and the accountant re-parses it, so the accounted output equals v
again; consequently a tool returning a string that itself parses as JSON appears in
toolCalls as the parsed value rather than the original string. -/
theorem tool_output_roundtrip (v : Json) (toolCall : ToolCall) :
    (Json.isStr v = false →
      renderToolContent v = stringifyChars v
      ∧ reparseToolOutput (renderToolContent v) = v
      ∧ extractToolCalls
          [Msg.ai [] [toolCall] none, Msg.tool (renderToolContent v) toolCall.id] []
        = [{ tool := toolCall.name, input := toolCall.args, output := v }])
    ∧ (∀ s j, v = Json.str s → parseJson s = some j →
        reparseToolOutput (renderToolContent v) = j) := by
  constructor
  · intro hv
    have h1 : renderToolContent v = stringifyChars v := by
      cases v <;> first
        | rfl
        | (exfalso; simp [Json.isStr] at hv)
    have h2 : reparseToolOutput (renderToolContent v) = v := by
      rw [h1]
      unfold reparseToolOutput
      rw [parseJson_stringify]
      rfl
    refine ⟨h1, h2, ?_⟩
    unfold extractToolCalls updateToolCallMap
    simp only [List.foldl_cons, List.foldl_nil]
    unfold setMapEntry
    simp only [List.any_nil, Bool.false_eq_true, if_false, List.nil_append]
    unfold extractToolCalls
    unfold lookupMapEntry
    simp [List.find?_cons, h2, extractToolCalls]
  · intro s j hvs hp
    subst hvs
    unfold reparseToolOutput renderToolContent
    rw [hp]
    rfl

theorem tool_output_roundtrip_witness :
    reparseToolOutput (renderToolContent (Json.arr [Json.num 5]))
      = Json.arr [Json.num 5]
    ∧ extractToolCalls
        [Msg.ai [] [sampleToolCall] none,
         Msg.tool (renderToolContent (Json.arr [Json.num 5])) sampleToolCall.id] []
      = [{ tool := sampleToolCall.name, input := sampleToolCall.args,
           output := Json.arr [Json.num 5] }]
    ∧ reparseToolOutput (renderToolContent (Json.str "true".toList)) = Json.bool true := by
  have ha := (tool_output_roundtrip (Json.arr [Json.num 5]) sampleToolCall).1 (by rfl)
  have hb := (tool_output_roundtrip (Json.str "true".toList) sampleToolCall).2
    "true".toList (Json.bool true) rfl (by rfl)
  exact ⟨ha.2.1, ha.2.2, hb⟩
